import Mathlib

/-!
Verification development for the image-cache engine of moely-wallpaper
(`src/main/imageCache.js`).  The JavaScript class `ImageCache` is shallowly
embedded: the filesystem, the metadata file, the clock and the network are an
explicit `State`; each method becomes a Lean function threading that state.
All machine arithmetic is `Nat`/`Int` with explicit 32-bit masking where the
MD5 hash needs it.
-/

namespace MoelyCache

/-! ### MD5 (the `crypto.createHash('md5')` dependency)

`generateFileName` hex-encodes the MD5 of the URL.  We embed the full RFC 1321
algorithm over byte lists so that fingerprints are concretely computable. -/

/-- Truncate to 32 bits. -/
def u32 (n : Nat) : Nat := n &&& 4294967295

/-- 32-bit left rotation. -/
def rotl32 (x s : Nat) : Nat := u32 ((x <<< s) ||| (x >>> (32 - s)))

/-- The 64 MD5 sine-table constants `K[i] = floor(2^32 * abs(sin(i+1)))`. -/
def md5K : List Nat :=
  [0xd76aa478, 0xe8c7b756, 0x242070db, 0xc1bdceee,
   0xf57c0faf, 0x4787c62a, 0xa8304613, 0xfd469501,
   0x698098d8, 0x8b44f7af, 0xffff5bb1, 0x895cd7be,
   0x6b901122, 0xfd987193, 0xa679438e, 0x49b40821,
   0xf61e2562, 0xc040b340, 0x265e5a51, 0xe9b6c7aa,
   0xd62f105d, 0x02441453, 0xd8a1e681, 0xe7d3fbc8,
   0x21e1cde6, 0xc33707d6, 0xf4d50d87, 0x455a14ed,
   0xa9e3e905, 0xfcefa3f8, 0x676f02d9, 0x8d2a4c8a,
   0xfffa3942, 0x8771f681, 0x6d9d6122, 0xfde5380c,
   0xa4beea44, 0x4bdecfa9, 0xf6bb4b60, 0xbebfbc70,
   0x289b7ec6, 0xeaa127fa, 0xd4ef3085, 0x04881d05,
   0xd9d4d039, 0xe6db99e5, 0x1fa27cf8, 0xc4ac5665,
   0xf4292244, 0x432aff97, 0xab9423a7, 0xfc93a039,
   0x655b59c3, 0x8f0ccc92, 0xffeff47d, 0x85845dd1,
   0x6fa87e4f, 0xfe2ce6e0, 0xa3014314, 0x4e0811a1,
   0xf7537e82, 0xbd3af235, 0x2ad7d2bb, 0xeb86d391]

/-- The 64 MD5 per-round shift amounts. -/
def md5S : List Nat :=
  [7, 12, 17, 22, 7, 12, 17, 22, 7, 12, 17, 22, 7, 12, 17, 22,
   5, 9, 14, 20, 5, 9, 14, 20, 5, 9, 14, 20, 5, 9, 14, 20,
   4, 11, 16, 23, 4, 11, 16, 23, 4, 11, 16, 23, 4, 11, 16, 23,
   6, 10, 15, 21, 6, 10, 15, 21, 6, 10, 15, 21, 6, 10, 15, 21]

/-- One MD5 round: `M` is the 16-word message block, `i` the round index. -/
def md5Step (M : List Nat) (st : Nat × Nat × Nat × Nat) (i : Nat) :
    Nat × Nat × Nat × Nat :=
  let a := st.1
  let b := st.2.1
  let c := st.2.2.1
  let d := st.2.2.2
  let fg : Nat × Nat :=
    if i < 16 then ((b &&& c) ||| ((b ^^^ 4294967295) &&& d), i)
    else if i < 32 then ((d &&& b) ||| ((d ^^^ 4294967295) &&& c), (5 * i + 1) % 16)
    else if i < 48 then (b ^^^ c ^^^ d, (3 * i + 5) % 16)
    else (c ^^^ (b ||| (d ^^^ 4294967295)), (7 * i) % 16)
  let f2 := u32 (fg.1 + a + md5K.getD i 0 + M.getD fg.2 0)
  (d, u32 (b + rotl32 f2 (md5S.getD i 0)), b, c)

/-- Pack bytes into 32-bit little-endian words. -/
def wordsLE : List Nat → List Nat
  | b0 :: b1 :: b2 :: b3 :: rest =>
      (b0 + (b1 <<< 8) + (b2 <<< 16) + (b3 <<< 24)) :: wordsLE rest
  | _ => []

/-- Process one 64-byte chunk, adding the round output into the running state. -/
def md5Chunk (st : Nat × Nat × Nat × Nat) (bytes : List Nat) :
    Nat × Nat × Nat × Nat :=
  let M := wordsLE bytes
  let r := (List.range 64).foldl (md5Step M) st
  (u32 (st.1 + r.1), u32 (st.2.1 + r.2.1), u32 (st.2.2.1 + r.2.2.1),
   u32 (st.2.2.2 + r.2.2.2))

/-- Little-endian byte expansion of an 8-byte (64-bit) quantity. -/
def bytesLE8 (n : Nat) : List Nat :=
  (List.range 8).map (fun i => (n >>> (8 * i)) &&& 255)

/-- MD5 padding: `0x80`, zeros to 56 mod 64, then the bit length little-endian. -/
def md5Pad (msg : List Nat) : List Nat :=
  let len := msg.length
  let zeros := (56 + 64 - ((len + 1) % 64)) % 64
  msg ++ [0x80] ++ List.replicate zeros 0 ++ bytesLE8 ((8 * len) % (2 ^ 64))

/-- Split into 64-byte chunks; the fuel argument keeps the recursion
structural so the kernel can evaluate fingerprints. -/
def toChunks : Nat → List Nat → List (List Nat)
  | 0, _ => []
  | _, [] => []
  | fuel + 1, l => l.take 64 :: toChunks fuel (l.drop 64)

/-- Lower-case hex digit. -/
def hexDigitChar (n : Nat) : Char :=
  if n < 10 then Char.ofNat (48 + n) else Char.ofNat (87 + n)

/-- Two hex digits of one byte. -/
def byteHex (b : Nat) : List Char := [hexDigitChar (b / 16), hexDigitChar (b % 16)]

/-- Hex of a 32-bit word, bytes in little-endian order (MD5 digest order). -/
def wordLEHex (w : Nat) : List Char :=
  ((List.range 4).map (fun i => byteHex ((w >>> (8 * i)) &&& 255))).flatten

/-- UTF-8 bytes of one character (the `update(url)` encoding in node). -/
def charUtf8 (c : Char) : List Nat :=
  let n := c.toNat
  if n < 0x80 then [n]
  else if n < 0x800 then [0xC0 ||| (n >>> 6), 0x80 ||| (n &&& 0x3F)]
  else if n < 0x10000 then
    [0xE0 ||| (n >>> 12), 0x80 ||| ((n >>> 6) &&& 0x3F), 0x80 ||| (n &&& 0x3F)]
  else
    [0xF0 ||| (n >>> 18), 0x80 ||| ((n >>> 12) &&& 0x3F),
     0x80 ||| ((n >>> 6) &&& 0x3F), 0x80 ||| (n &&& 0x3F)]

/-- UTF-8 byte sequence of a string. -/
def utf8Bytes (s : String) : List Nat := (s.data.map charUtf8).flatten

/-- Hex-encoded MD5 digest of a string:
`crypto.createHash('md5').update(url).digest('hex')`. -/
def md5Hex (s : String) : String :=
  let padded := md5Pad (utf8Bytes s)
  let r := (toChunks padded.length padded).foldl md5Chunk
    (0x67452301, 0xefcdab89, 0x98badcfe, 0x10325476)
  String.mk (wordLEHex r.1 ++ wordLEHex r.2.1 ++ wordLEHex r.2.2.1 ++
    wordLEHex r.2.2.2)

/-! ### `path.extname` and `String.split` (node/JS semantics)

`generateFileName` computes `path.extname(url).split('?')[0] || '.jpg'`.
We reproduce node's posix `extname`: trailing slashes are skipped, the scan
works on the basename after the last remaining `/`, a leading-dot-only name
(dotfile) and the special name `..` have no extension. -/

/-- Drop trailing `/` characters (node skips them before scanning). -/
def dropTrailingSlashes (cs : List Char) : List Char :=
  (cs.reverse.dropWhile (fun c => c == '/')).reverse

/-- The part after the last `/`. -/
def lastComponent (cs : List Char) : List Char :=
  cs.foldl (fun acc c => if c == '/' then [] else acc ++ [c]) []

/-- Index of the last `.` in a character list, if any. -/
def lastDotIdx (cs : List Char) : Option Nat :=
  match cs.reverse.findIdx? (fun c => c == '.') with
  | none => none
  | some r => some (cs.length - 1 - r)

/-- Node's posix `path.extname`. -/
def extname (p : String) : String :=
  let b := lastComponent (dropTrailingSlashes p.data)
  if b = ['.', '.'] then ""
  else
    match lastDotIdx b with
    | none => ""
    | some 0 => ""
    | some i => String.mk (b.drop i)

/-- JavaScript `String.prototype.split` with a one-character separator.
Always returns at least one (possibly empty) piece. -/
def jsSplit (sep : Char) : List Char → List (List Char)
  | [] => [[]]
  | c :: rest =>
    let r := jsSplit sep rest
    if c == sep then [] :: r
    else
      match r with
      | [] => [[c]]
      | h :: t => (c :: h) :: t

/-! ### Fingerprinter: `generateFileName` -/

/-- `generateFileName(url)` from the source:
`md5(url) hex ++ (path.extname(url).split('?')[0] || '.jpg')`. -/
def generateFileName (url : String) : String :=
  let hash := md5Hex url
  let extRaw := String.mk ((jsSplit '?' (extname url).data).headD [])
  let ext := if extRaw = "" then ".jpg" else extRaw
  hash ++ ext

/-! ### Data model

The cache directory, the metadata file, the failure behaviour of `fs`, the
network and the clock are explicit state.  Image files are an association
list `fileName ↦ size` (sizes in bytes); `metadata.json` is modelled
separately as the (parsed) content of the backing file, `none` when the file
is absent.  `statFail f` / `unlinkFail f` say that `fs.statSync` /
`fs.unlinkSync` throws on `f` (permission / lock conflicts); `network url`
is the outcome axios and the stream deliver for `url`; `now` is the clock in
milliseconds since epoch; `transfers` counts started HTTP transfers. -/

/-- One metadata record, as written by `downloadImage`.  `downloadTime` is
`none` when the JSON entry carries no (or a falsy) timestamp. -/
structure CacheEntry where
  id : String
  localPath : String
  downloadTime : Option Int
  originalUrl : String
  fileSize : Nat
deriving DecidableEq

/-- Outcome of one attempted HTTP streaming download. -/
inductive NetResult where
  /-- the stream completes and `size` bytes were piped to the file -/
  | ok (size : Nat)
  /-- `response.data` errors after `written` bytes reached the file -/
  | streamErr (written : Nat) (msg : String)
  /-- the write stream errors after `written` bytes reached the file -/
  | writeErr (written : Nat) (msg : String)
  /-- axios itself rejects (timeout, DNS, connection reset); no file is
  created because `createWriteStream` is never reached -/
  | reqErr (msg : String)
deriving DecidableEq

/-- The world state an `ImageCache` instance operates on. -/
structure State where
  files : List (String × Nat)
  metadataFile : Option (List (String × CacheEntry))
  statFail : String → Bool
  unlinkFail : String → Bool
  network : String → NetResult
  now : Int
  transfers : Nat

/-- Name of the metadata backing file inside the cache directory. -/
def metadataFileName : String := "metadata.json"

/-- `app.getPath('userData')` joined with `wallpaper-cache`, modelled as a
fixed location. -/
def cacheDir : String := "/userData/wallpaper-cache"

/-- `getLocalPath(url)`: the fingerprinted path inside the cache directory. -/
def getLocalPath (url : String) : String :=
  cacheDir ++ "/" ++ generateFileName url

/-- The fingerprinted file name for a URL (the key into `State.files`). -/
def fname (url : String) : String := generateFileName url

/-- Size of the file with the given name, `none` when absent. -/
def lookupFile (st : State) (n : String) : Option Nat := st.files.lookup n

/-- `fs.existsSync` on a cache-directory file. -/
def existsSyncF (st : State) (n : String) : Bool := (lookupFile st n).isSome

/-- Create or overwrite (truncate) a file, as `fs.createWriteStream` does. -/
def setFile (st : State) (n : String) (sz : Nat) : State :=
  { st with files := (n, sz) :: st.files.filter (fun p => p.1 != n) }

/-- Remove every directory entry with the given name. -/
def deleteFile (st : State) (n : String) : State :=
  { st with files := st.files.filter (fun p => p.1 != n) }

/-- `readMetadata()`: parsed content of `metadata.json`, `{}` when the file
is absent (parse failures, also yielding `{}`, are not modelled). -/
def readMetadata (st : State) : List (String × CacheEntry) :=
  st.metadataFile.getD []

/-- `writeMetadata(metadata)`: overwrite the backing file (write failures,
which the source logs and absorbs, are not modelled). -/
def writeMetadata (st : State) (m : List (String × CacheEntry)) : State :=
  { st with metadataFile := some m }

/-- `metadata[url] = entry`: insert or replace one key. -/
def metaInsert (m : List (String × CacheEntry)) (url : String)
    (e : CacheEntry) : List (String × CacheEntry) :=
  (url, e) :: m.filter (fun p => p.1 != url)

/-- `delete metadata[url]`. -/
def metaErase (m : List (String × CacheEntry)) (url : String) :
    List (String × CacheEntry) :=
  m.filter (fun p => p.1 != url)

/-- Milliseconds per day, `1000 * 60 * 60 * 24`, as a rational since the
source divides JS numbers. -/
def msPerDay : ℚ := 86400000

/-- `isCacheExpired(url)`: expired when there is no entry, no (or falsy)
`downloadTime`, or `(now - downloadTime) / msPerDay > 7`. -/
def isCacheExpired (st : State) (url : String) : Bool :=
  match (readMetadata st).lookup url with
  | none => true
  | some cacheInfo =>
    match cacheInfo.downloadTime with
    | none => true
    | some dt => decide ((((st.now - dt : Int) : ℚ) / msPerDay) > 7)

/-- `removeExpiredCache(url)`: unlink the fingerprinted file if present,
then drop the metadata entry; everything sits in one `try`, so an unlink
failure aborts the whole operation (caught, state unchanged). -/
def removeExpiredCache (st : State) (url : String) : State :=
  let n := fname url
  if existsSyncF st n && st.unlinkFail n then st
  else
    let st1 := if existsSyncF st n then deleteFile st n else st
    writeMetadata st1 (metaErase (readMetadata st1) url)

/-- `exists(url)`: file present, stat it (a stat failure is caught and
yields `false`), self-heal a zero-byte file, evict an expired one. -/
def existsChk (st : State) (url : String) : Bool × State :=
  let n := fname url
  match lookupFile st n with
  | none => (false, st)
  | some sz =>
    if st.statFail n then (false, st)
    else if sz = 0 then
      if st.unlinkFail n then (false, st)
      else (false, deleteFile st n)
    else if isCacheExpired st url then (false, removeExpiredCache st url)
    else (true, st)

/-- Delete the fingerprinted file on a failed download, as the error
handlers do (`if (fs.existsSync(localPath)) fs.unlinkSync(localPath)`).
When the unlink itself fails the file stays behind. -/
def tryDelete (st : State) (n : String) : State :=
  if existsSyncF st n && !st.unlinkFail n then deleteFile st n else st

/-- `downloadImage(url, wallpaperId)`: pre-check via `exists`, then stream
the body to the fingerprinted path; on completion reject a zero-byte file,
otherwise record the metadata entry; on stream/write errors clean up the
partial file; an axios rejection leaves the directory untouched. -/
def downloadImage (st : State) (url wallpaperId : String) :
    Except String String × State :=
  let localPath := getLocalPath url
  let n := fname url
  let pre := existsChk st url
  if pre.1 then (Except.ok localPath, pre.2)
  else
    let st1 := { pre.2 with transfers := pre.2.transfers + 1 }
    match st1.network url with
    | NetResult.reqErr msg => (Except.error msg, st1)
    | NetResult.ok size =>
      let st2 := setFile st1 n size
      if size = 0 then
        (Except.error "Downloaded file is empty", tryDelete st2 n)
      else
        let entry : CacheEntry :=
          { id := wallpaperId, localPath := localPath,
            downloadTime := some st2.now, originalUrl := url,
            fileSize := size }
        (Except.ok localPath,
         writeMetadata st2 (metaInsert (readMetadata st2) url entry))
    | NetResult.streamErr written msg =>
      let st2 := setFile st1 n written
      (Except.error msg, tryDelete st2 n)
    | NetResult.writeErr written msg =>
      let st2 := setFile st1 n written
      (Except.error msg, tryDelete st2 n)

/-- `getLocalImageUrl(url)`: `file://` + local path when a file exists at
the fingerprinted path, else `null`.  It reads nothing but the directory. -/
def getLocalImageUrl (st : State) (url : String) : Option String :=
  if existsSyncF st (fname url) then some ("file://" ++ getLocalPath url)
  else none

/-! ### Batch orchestrator -/

/-- One catalog item handed to `batchDownload`. -/
structure Wallpaper where
  id : String
  imageUrl : String
  artist : String
  source : String
deriving DecidableEq

/-- One `batchDownload` result: the input item spread together with the
decoration fields. -/
structure BatchResult where
  item : Wallpaper
  localPath : Option String
  cached : Bool
  error : Option String
deriving DecidableEq

/-- The loop body of `batchDownload`: sequential downloads, per-item result
records, a progress call after every item, and a 1-second pause between
items (modelled as the clock advancing).  The second component collects the
`(completed, total)` arguments of the progress-callback invocations. -/
def batchGo (total : Nat) (ws : List Wallpaper) (completed : Nat)
    (st : State) : List BatchResult × List (Nat × Nat) × State :=
  match ws with
  | [] => ([], [], st)
  | w :: rest =>
    let dl := downloadImage st w.imageUrl w.id
    let res : BatchResult :=
      match dl.1 with
      | Except.ok lp =>
        { item := w, localPath := some lp, cached := true, error := none }
      | Except.error m =>
        { item := w, localPath := none, cached := false, error := some m }
    let c := completed + 1
    let st2 := if c < total then { dl.2 with now := dl.2.now + 1000 } else dl.2
    let rec2 := batchGo total rest c st2
    (res :: rec2.1, (c, total) :: rec2.2.1, rec2.2.2)

/-- `batchDownload(wallpapers, progressCallback)`. -/
def batchDownload (st : State) (ws : List Wallpaper) :
    List BatchResult × List (Nat × Nat) × State :=
  batchGo ws.length ws 0 st

/-! ### Cache administrator -/

/-- `fs.readdirSync(cacheDir)`: the image files plus, when present, the
metadata backing file. -/
def listDir (st : State) : List String :=
  st.files.map Prod.fst ++
    (if st.metadataFile.isSome then [metadataFileName] else [])

/-- `fs.statSync` inside the cache directory: `none` when it throws.  The
metadata file is given nominal size 0 (its size is never used). -/
def statSize (st : State) (n : String) : Option Nat :=
  if st.statFail n then none
  else if n = metadataFileName then
    (if st.metadataFile.isSome then some 0 else none)
  else lookupFile st n

/-- Delete one directory entry, whichever kind it is. -/
def deleteAny (st : State) (n : String) : State :=
  if n = metadataFileName then { st with metadataFile := none }
  else deleteFile st n

/-- One iteration of the `clearCache` loop: stat the file (a stat failure
skips it), then unlink it (an unlink failure skips it). -/
def clearStep (s : State) (n : String) : State :=
  match statSize s n with
  | none => s
  | some _ => if s.unlinkFail n then s else deleteAny s n

/-- `clearCache()`: list the directory once, then delete each file
individually, skipping files whose stat or unlink throws;
`ensureCacheDir` afterwards is a no-op here since the directory itself is
never deleted. -/
def clearCache (st : State) : State := (listDir st).foldl clearStep st

/-- The record `getCacheStats` returns; `oldestImage`/`newestImage` stay
`null` in the source. -/
structure CacheStats where
  totalImages : Nat
  cacheSize : Nat
  oldestImage : Option String
  newestImage : Option String
deriving DecidableEq

/-- One iteration of the `getCacheStats` size loop: skip the metadata file
by name, stat the file (a stat failure skips it) and add its size. -/
def statsStep (st : State) (acc : Nat) (n : String) : Nat :=
  if n ≠ metadataFileName then
    match statSize st n with
    | some sz => acc + sz
    | none => acc
  else acc

/-- `getCacheStats()`: entry count from the metadata keys; byte total by
enumerating the directory, skipping `metadata.json` and files whose stat
throws. -/
def getCacheStats (st : State) : CacheStats :=
  let metadata := readMetadata st
  { totalImages := metadata.length,
    cacheSize := (listDir st).foldl (statsStep st) 0,
    oldestImage := none, newestImage := none }

/-! ### Association-list helper lemmas -/

theorem lookup_filter_self {α : Type} (l : List (String × α)) (k : String) :
    (l.filter (fun p => p.1 != k)).lookup k = none := by
  induction l with
  | nil => rfl
  | cons p rest ih =>
    by_cases h : p.1 = k
    · have hb : (p.1 != k) = false := by simp [h]
      simpa [List.filter_cons, hb] using ih
    · have hb : (p.1 != k) = true := by simp [h]
      have hk : (k == p.1) = false := beq_eq_false_iff_ne.mpr (Ne.symm h)
      simpa [List.filter_cons, hb, List.lookup, hk] using ih

theorem lookup_self {α : Type} (l : List (String × α)) (k : String) (v : α) :
    List.lookup k ((k, v) :: l) = some v := by
  simp [List.lookup]

theorem lookup_isSome_of_mem {α : Type} (l : List (String × α))
    (p : String × α) (hp : p ∈ l) : (List.lookup p.1 l).isSome = true := by
  induction l with
  | nil => cases hp
  | cons q rest ih =>
    by_cases h : p.1 = q.1
    · simp [List.lookup, h]
    · rcases List.mem_cons.mp hp with he | hm
      · exact absurd (congrArg Prod.fst he) h
      · simpa [List.lookup, beq_eq_false_iff_ne.mpr h] using ih hm

theorem lookup_of_mem_nodup {α : Type} (l : List (String × α))
    (hn : (l.map Prod.fst).Nodup) (k : String) (v : α)
    (hm : (k, v) ∈ l) : List.lookup k l = some v := by
  induction l with
  | nil => cases hm
  | cons q rest ih =>
    rcases List.mem_cons.mp hm with he | hmem
    · cases he
      exact lookup_self rest k v
    · have hq : k ≠ q.1 := by
        intro he
        have : q.1 ∈ rest.map Prod.fst :=
          he ▸ List.mem_map_of_mem Prod.fst hmem
        exact (List.nodup_cons.mp hn).1 this
      simpa [List.lookup, beq_eq_false_iff_ne.mpr hq] using
        ih (List.nodup_cons.mp hn).2 hmem

/-! ### Expiry arithmetic -/

theorem expiry_div_iff (d : Int) :
    ((((d : Int) : ℚ) / msPerDay) > 7) ↔ d > 604800000 := by
  rw [msPerDay, gt_iff_lt, lt_div_iff (by norm_num : (0 : ℚ) < 86400000)]
  rw [show (7 : ℚ) * 86400000 = ((604800000 : Int) : ℚ) by norm_num]
  exact ⟨fun h => by exact_mod_cast h, fun h => by exact_mod_cast h⟩

/-- The expiry condition in the claim's words: no metadata entry, no
download time, or an age strictly above 7 days (in milliseconds). -/
def expirySpec (st : State) (url : String) : Prop :=
  match (readMetadata st).lookup url with
  | none => True
  | some e =>
    match e.downloadTime with
    | none => True
    | some dt => st.now - dt > 604800000

/-- A state holding exactly one metadata entry with the given download
time, an empty directory and failure-free oracles. -/
def metaOnlySt (url : String) (dt : Int) : State :=
  { files := [],
    metadataFile := some [(url,
      { id := "w", localPath := "p", downloadTime := some dt,
        originalUrl := url, fileSize := 5 })],
    statFail := fun _ => false, unlinkFail := fun _ => false,
    network := fun _ => NetResult.reqErr "offline", now := 0, transfers := 0 }

theorem isCacheExpired_iff (st : State) (url : String) :
    isCacheExpired st url = true ↔ expirySpec st url := by
  unfold isCacheExpired expirySpec
  cases hl : (readMetadata st).lookup url with
  | none => simp
  | some e =>
    cases hdt : e.downloadTime with
    | none => simp [hdt]
    | some dt => simp only [hdt]; simpa using expiry_div_iff (st.now - dt)

/-- C5: `isCacheExpired(u)` is true iff there is no metadata entry for `u`,
the entry has no `downloadTime`, or `now - downloadTime` strictly exceeds
7 days; an entry aged exactly 7 days + 1 second is expired and one aged
exactly 7 days - 1 second is not. -/
theorem isCacheExpired_spec :
    (∀ st url, isCacheExpired st url = true ↔ expirySpec st url) ∧
    isCacheExpired (metaOnlySt "u" (-604801000)) "u" = true ∧
    isCacheExpired (metaOnlySt "u" (-604799000)) "u" = false := by
  refine ⟨isCacheExpired_iff, ?_, ?_⟩
  · exact (isCacheExpired_iff _ _).mpr
      (show ((0 : Int) - (-604801000) > 604800000) by decide)
  · cases hb : isCacheExpired (metaOnlySt "u" (-604799000)) "u" with
    | false => rfl
    | true =>
      exact absurd ((isCacheExpired_iff _ _).mp hb)
        (show ¬((0 : Int) - (-604799000) > 604800000) by decide)

/-- C10: `getLocalImageUrl(u)` decides solely by file existence: it returns
`file://` + the fingerprinted path exactly when a file exists there (whatever
the metadata says) and `null` otherwise; it never consults the metadata
store and never mutates anything. -/
theorem getLocalImageUrl_spec :
    ∀ st url,
      (getLocalImageUrl st url = some ("file://" ++ getLocalPath url) ↔
        existsSyncF st (fname url) = true) ∧
      (getLocalImageUrl st url = none ↔ existsSyncF st (fname url) = false) ∧
      (∀ m nw t tr sf uf,
        getLocalImageUrl
          { st with
            metadataFile := m, network := nw, now := t,
            transfers := tr, statFail := sf, unlinkFail := uf } url =
          getLocalImageUrl st url) := by
  intro st url
  refine ⟨?_, ?_, fun m nw t tr sf uf => rfl⟩ <;>
    cases h : existsSyncF st (fname url) <;> simp [getLocalImageUrl, h]

/-! ### C6: the fingerprint extension -/

theorem jsSplit_ne_nil (sep : Char) (cs : List Char) : jsSplit sep cs ≠ [] := by
  cases cs with
  | nil => simp [jsSplit]
  | cons c rest =>
    unfold jsSplit
    by_cases h : (c == sep) = true
    · simp [h]
    · simp only [Bool.not_eq_true] at h
      cases hr : jsSplit sep rest <;> simp [h, hr]

theorem jsSplit_headD (sep : Char) (cs : List Char) :
    (jsSplit sep cs).headD [] = cs.takeWhile (fun c => c != sep) := by
  induction cs with
  | nil => rfl
  | cons c rest ih =>
    unfold jsSplit
    by_cases h : (c == sep) = true
    · have hc : c = sep := beq_iff_eq.mp h
      subst hc
      simp [List.takeWhile_cons]
    · simp only [Bool.not_eq_true] at h
      have hne : c ≠ sep := beq_eq_false_iff_ne.mp h
      cases hr : jsSplit sep rest with
      | nil => exact absurd hr (jsSplit_ne_nil sep rest)
      | cons hd tl =>
        rw [hr] at ih
        simp [h, hr, List.takeWhile_cons, hne, ← ih]

/-- The extension suffix in the amended claim's words: `path.extname` of the
full URL string truncated at the first `?`, with `.jpg` as the default when
that suffix is empty. -/
def fingerprintSuffix (url : String) : String :=
  let e := String.mk ((extname url).data.takeWhile (fun c => c != '?'))
  if e = "" then ".jpg" else e

set_option maxRecDepth 40000 in
/-- C6 counterexample: for `u = "http://a/b.png?v=2.3"` the fingerprint ends
neither in the URL's real extension `.png` nor in the default `.jpg` (the
code extracts `.3` out of the query string), refuting the claimed shape. -/
theorem generateFileName_ext_counterexample :
    generateFileName "http://a/b.png?v=2.3" ≠
      md5Hex "http://a/b.png?v=2.3" ++ ".png" ∧
    generateFileName "http://a/b.png?v=2.3" ≠
      md5Hex "http://a/b.png?v=2.3" ++ ".jpg" := by decide

set_option maxRecDepth 40000 in
/-- C6 (amended): `generateFileName(u)` is pure and deterministic, equal to
the hex MD5 of `u` concatenated with `path.extname(u)` (computed on the full
URL string, so a dotted query string can supply the suffix) truncated at the
first `?`, defaulting to `.jpg` when that suffix is empty — as it is for an
extensionless path — and keeping a real extension such as `.png` when no dot
follows it in the query. -/
theorem generateFileName_amended :
    (∀ url, generateFileName url = md5Hex url ++ fingerprintSuffix url) ∧
    generateFileName "http://x/img" = md5Hex "http://x/img" ++ ".jpg" ∧
    generateFileName "http://x/a.png" = md5Hex "http://x/a.png" ++ ".png" := by
  refine ⟨?_, by decide, by decide⟩
  intro url
  unfold generateFileName fingerprintSuffix
  rw [jsSplit_headD]

/-! ### C8: zero-byte files and the two cache-hit queries -/

/-- A state with a zero-byte file at the fingerprinted path and a metadata
entry claiming a valid, fresh download. -/
def zeroByteSt : State :=
  { files := [(fname "http://a/pic.png", 0)],
    metadataFile := some [("http://a/pic.png",
      { id := "p1", localPath := "p", downloadTime := some 0,
        originalUrl := "http://a/pic.png", fileSize := 5 })],
    statFail := fun _ => false, unlinkFail := fun _ => false,
    network := fun _ => NetResult.reqErr "offline", now := 0, transfers := 0 }

set_option maxRecDepth 40000 in
/-- C8 counterexample: with a zero-byte file at the fingerprinted path,
`getLocalImageUrl` does NOT treat it as absent — it returns the `file://`
URL instead of the `null` the claim demands of every cache-hit query. -/
theorem zeroByte_localUrl_counterexample :
    lookupFile zeroByteSt (fname "http://a/pic.png") = some 0 ∧
    getLocalImageUrl zeroByteSt "http://a/pic.png" ≠ none := by decide

/-- C8 (amended): a zero-byte file is never a valid hit for `exists(u)`,
which reports false; but `getLocalImageUrl(u)` decides by raw file
existence only and returns the `file://` URL even for a zero-byte file. -/
theorem zeroByte_amended :
    ∀ st url, lookupFile st (fname url) = some 0 →
      st.statFail (fname url) = false →
      (existsChk st url).1 = false ∧
      getLocalImageUrl st url = some ("file://" ++ getLocalPath url) := by
  intro st url h hs
  constructor
  · simp only [existsChk]
    rw [h]
    by_cases hu : st.unlinkFail (fname url) = true <;> simp [hs, hu]
  · simp [getLocalImageUrl, existsSyncF, h]

set_option maxRecDepth 40000 in
theorem zeroByte_amended_witness :
    (existsChk zeroByteSt "http://a/pic.png").1 = false ∧
    getLocalImageUrl zeroByteSt "http://a/pic.png" =
      some ("file://" ++ getLocalPath "http://a/pic.png") :=
  zeroByte_amended zeroByteSt "http://a/pic.png" (by decide) rfl

/-! ### C3: the `exists` contract -/

/-- C3: `exists(u)` is true only if the fingerprinted file exists with
non-zero size and the entry is unexpired; a zero-byte file is deleted and
`false` returned; an expired file is deleted together with its metadata
entry and `false` returned. -/
theorem existsChk_spec :
    (∀ st url, (existsChk st url).1 = true →
      (lookupFile st (fname url)).getD 0 ≠ 0 ∧
      st.statFail (fname url) = false ∧ isCacheExpired st url = false) ∧
    (∀ st url, lookupFile st (fname url) = some 0 →
      st.statFail (fname url) = false → st.unlinkFail (fname url) = false →
      (existsChk st url).1 = false ∧
      lookupFile (existsChk st url).2 (fname url) = none) ∧
    (∀ st url sz, lookupFile st (fname url) = some sz → sz ≠ 0 →
      st.statFail (fname url) = false → st.unlinkFail (fname url) = false →
      isCacheExpired st url = true →
      (existsChk st url).1 = false ∧
      lookupFile (existsChk st url).2 (fname url) = none ∧
      List.lookup url (readMetadata (existsChk st url).2) = none) := by
  refine ⟨?_, ?_, ?_⟩
  · intro st url ht
    simp only [existsChk] at ht
    cases hl : lookupFile st (fname url) with
    | none => simp [hl] at ht
    | some sz =>
      rw [hl] at ht
      by_cases hs : st.statFail (fname url) = true
      · simp [hs] at ht
      · simp only [Bool.not_eq_true] at hs
        by_cases hz : sz = 0
        · subst hz
          by_cases hu : st.unlinkFail (fname url) = true <;>
            simp [hs, hu] at ht
        · by_cases he : isCacheExpired st url = true
          · simp [hs, hz, he] at ht
          · simp only [Bool.not_eq_true] at he
            exact ⟨by simpa [hl] using hz, hs, he⟩
  · intro st url hl hs hu
    simp only [existsChk]
    rw [hl]
    simp [hs, hu, deleteFile, lookupFile, lookup_filter_self]
  · intro st url sz hl hz hs hu he
    have hred : existsChk st url = (false, removeExpiredCache st url) := by
      simp only [existsChk]
      rw [hl]
      simp [hs, hz, he]
    have hex : existsSyncF st (fname url) = true := by
      simp [existsSyncF, hl]
    have hrm : removeExpiredCache st url =
        writeMetadata (deleteFile st (fname url))
          (metaErase (readMetadata (deleteFile st (fname url))) url) := by
      simp [removeExpiredCache, hex, hu]
    rw [hred, hrm]
    exact ⟨rfl, lookup_filter_self _ _, lookup_filter_self _ _⟩

/-- A concrete state holding only a zero-byte cached file. -/
def c3St : State :=
  { files := [(fname "http://a/zb.png", 0)], metadataFile := none,
    statFail := fun _ => false, unlinkFail := fun _ => false,
    network := fun _ => NetResult.reqErr "offline", now := 0, transfers := 0 }

set_option maxRecDepth 40000 in
theorem existsChk_spec_witness :
    (existsChk c3St "http://a/zb.png").1 = false ∧
    lookupFile (existsChk c3St "http://a/zb.png").2
      (fname "http://a/zb.png") = none :=
  existsChk_spec.2.1 c3St "http://a/zb.png" (by decide) rfl rfl

/-! ### C4: partial-file cleanup on failed downloads -/

/-- The failure modes enumerated by the claim: a mid-transfer stream error,
a write error, or a completed transfer that delivered zero bytes. -/
def coveredFailure : NetResult → Prop
  | NetResult.ok sz => sz = 0
  | NetResult.streamErr _ _ => True
  | NetResult.writeErr _ _ => True
  | NetResult.reqErr _ => False

/-- Whether an `Except` result is a success. -/
def exceptIsOk : Except String String → Bool
  | Except.ok _ => true
  | Except.error _ => false

theorem existsChk_preserves (st : State) (url : String) :
    (existsChk st url).2.network = st.network ∧
    (existsChk st url).2.unlinkFail = st.unlinkFail ∧
    (existsChk st url).2.statFail = st.statFail ∧
    (existsChk st url).2.now = st.now ∧
    (existsChk st url).2.transfers = st.transfers := by
  simp only [existsChk, removeExpiredCache, existsSyncF, writeMetadata,
    deleteFile]
  repeat' split
  all_goals exact ⟨rfl, rfl, rfl, rfl, rfl⟩

/-- C4: whenever `downloadImage(u, id)` fails through one of the claimed
modes — stream error, write error, or an empty completed download — and the
unlink of the fingerprinted path does not itself fail, no file exists at the
fingerprinted path once the failure is returned. -/
theorem downloadImage_failure_cleanup :
    ∀ st url wid, st.unlinkFail (fname url) = false →
      coveredFailure (st.network url) →
      exceptIsOk (downloadImage st url wid).1 = false →
      lookupFile (downloadImage st url wid).2 (fname url) = none := by
  intro st url wid hu hc hf
  have hun : (existsChk st url).2.unlinkFail = st.unlinkFail :=
    (existsChk_preserves st url).2.1
  have hnw : (existsChk st url).2.network = st.network :=
    (existsChk_preserves st url).1
  simp only [downloadImage] at hf ⊢
  by_cases hp : (existsChk st url).1 = true
  · simp [hp, exceptIsOk] at hf
  · simp only [Bool.not_eq_true] at hp
    simp only [hp, Bool.false_eq_true, if_false] at hf ⊢
    rw [show ({ (existsChk st url).2 with
        transfers := (existsChk st url).2.transfers + 1 } : State).network =
          st.network from hnw] at hf ⊢
    cases hn : st.network url with
    | reqErr msg =>
      rw [hn] at hc
      simp only [coveredFailure] at hc
    | ok sz =>
      rw [hn] at hc
      simp only [coveredFailure] at hc
      subst hc
      simp [tryDelete, setFile, existsSyncF, lookupFile, lookup_self, hun,
        hu, deleteFile, lookup_filter_self]
    | streamErr w msg =>
      simp [tryDelete, setFile, existsSyncF, lookupFile, lookup_self, hun,
        hu, deleteFile, lookup_filter_self]
    | writeErr w msg =>
      simp [tryDelete, setFile, existsSyncF, lookupFile, lookup_self, hun,
        hu, deleteFile, lookup_filter_self]

/-- A concrete state whose network fails mid-stream after 5 bytes. -/
def c4St : State :=
  { files := [], metadataFile := none, statFail := fun _ => false,
    unlinkFail := fun _ => false,
    network := fun _ => NetResult.streamErr 5 "boom", now := 0, transfers := 0 }

set_option maxRecDepth 40000 in
theorem downloadImage_failure_cleanup_witness :
    lookupFile (downloadImage c4St "http://a/s.png" "w").2
      (fname "http://a/s.png") = none :=
  downloadImage_failure_cleanup c4St "http://a/s.png" "w" rfl trivial
    (by decide)

/-! ### C2: idempotent caching -/

theorem isCacheExpired_of_recent (st : State) (url : String) (e : CacheEntry)
    (dt : Int) (hl : (readMetadata st).lookup url = some e)
    (hdt : e.downloadTime = some dt) (h : st.now - dt ≤ 604800000) :
    isCacheExpired st url = false := by
  unfold isCacheExpired
  rw [hl]
  simp only [hdt]
  rw [decide_eq_false_iff_not, expiry_div_iff]
  omega

/-- C2: with no file cached yet and a network delivering a non-empty body,
`downloadImage(u, id)` succeeds with the fingerprinted path and one
transfer; immediately re-running it (clock `t2`, within the 7-day window)
hits the `exists` pre-check, returns the same path, and performs no second
transfer — two calls, exactly one network transfer. -/
theorem downloadImage_idempotent :
    ∀ st url wid sz t2,
      lookupFile st (fname url) = none →
      st.network url = NetResult.ok sz → sz ≠ 0 →
      st.statFail (fname url) = false →
      st.now ≤ t2 → t2 - st.now ≤ 604800000 →
      (downloadImage st url wid).1 = Except.ok (getLocalPath url) ∧
      (downloadImage st url wid).2.transfers = st.transfers + 1 ∧
      (existsChk { (downloadImage st url wid).2 with now := t2 } url).1 = true ∧
      (downloadImage { (downloadImage st url wid).2 with now := t2 } url
        wid).1 = Except.ok (getLocalPath url) ∧
      (downloadImage { (downloadImage st url wid).2 with now := t2 } url
        wid).2.transfers = st.transfers + 1 := by
  intro st url wid sz t2 hl hn hsz hs ht1 ht2
  have hpre : existsChk st url = (false, st) := by
    simp only [existsChk]
    rw [hl]
  have hd1 : downloadImage st url wid =
      (Except.ok (getLocalPath url),
        writeMetadata
          (setFile { st with transfers := st.transfers + 1 } (fname url) sz)
          (metaInsert (readMetadata st) url
            { id := wid, localPath := getLocalPath url,
              downloadTime := some st.now, originalUrl := url,
              fileSize := sz })) := by
    simp [downloadImage, hpre, hn, hsz, writeMetadata, setFile, metaInsert,
      readMetadata]
  rw [hd1]
  refine ⟨rfl, rfl, ?_⟩
  set S1 : State :=
    writeMetadata
      (setFile { st with transfers := st.transfers + 1 } (fname url) sz)
      (metaInsert (readMetadata st) url
        { id := wid, localPath := getLocalPath url,
          downloadTime := some st.now, originalUrl := url, fileSize := sz })
    with hS1
  have hfile : lookupFile { S1 with now := t2 } (fname url) = some sz := by
    rw [hS1]
    simp [writeMetadata, setFile, lookupFile, lookup_self]
  have hstat : S1.statFail (fname url) = false := by
    rw [hS1]
    exact hs
  have hmeta : (readMetadata { S1 with now := t2 }).lookup url =
      some { id := wid, localPath := getLocalPath url,
             downloadTime := some st.now, originalUrl := url,
             fileSize := sz } := by
    rw [hS1]
    simp [readMetadata, writeMetadata, setFile, metaInsert, lookup_self]
  have hexp : isCacheExpired { S1 with now := t2 } url = false :=
    isCacheExpired_of_recent _ _ _ st.now hmeta rfl
      (show ({ S1 with now := t2 } : State).now - st.now ≤ 604800000 from ht2)
  have hex3 : existsChk { S1 with now := t2 } url =
      (true, { S1 with now := t2 }) := by
    simp only [existsChk]
    rw [hfile]
    simp [hstat, hsz, hexp]
  have hd2 : downloadImage { S1 with now := t2 } url wid =
      (Except.ok (getLocalPath url), { S1 with now := t2 }) := by
    simp [downloadImage, hex3]
  refine ⟨by rw [hex3], by rw [hd2], ?_⟩
  rw [hd2]
  rw [hS1]
  rfl

/-- A concrete state with an empty cache and a 10-byte network body. -/
def c2St : State :=
  { files := [], metadataFile := none, statFail := fun _ => false,
    unlinkFail := fun _ => false, network := fun _ => NetResult.ok 10,
    now := 0, transfers := 0 }

set_option maxRecDepth 40000 in
theorem downloadImage_idempotent_witness :
    (downloadImage c2St "http://a/w1.png" "w1").1 =
      Except.ok (getLocalPath "http://a/w1.png") ∧
    (downloadImage c2St "http://a/w1.png" "w1").2.transfers =
      c2St.transfers + 1 ∧
    (existsChk { (downloadImage c2St "http://a/w1.png" "w1").2 with
      now := 0 } "http://a/w1.png").1 = true ∧
    (downloadImage { (downloadImage c2St "http://a/w1.png" "w1").2 with
      now := 0 } "http://a/w1.png" "w1").1 =
      Except.ok (getLocalPath "http://a/w1.png") ∧
    (downloadImage { (downloadImage c2St "http://a/w1.png" "w1").2 with
      now := 0 } "http://a/w1.png" "w1").2.transfers = c2St.transfers + 1 :=
  downloadImage_idempotent c2St "http://a/w1.png" "w1" 10 0 rfl rfl
    (by decide) rfl (by decide) (by decide)

/-! ### C1: the batch contract -/

theorem downloadImage_result_shape (st : State) (url wid : String) :
    (downloadImage st url wid).1 = Except.ok (getLocalPath url) ∨
    ∃ m, (downloadImage st url wid).1 = Except.error m := by
  simp only [downloadImage]
  by_cases hp : (existsChk st url).1 = true
  · simp [hp]
  · simp only [Bool.not_eq_true] at hp
    simp only [hp, Bool.false_eq_true, if_false]
    cases ({ (existsChk st url).2 with
      transfers := (existsChk st url).2.transfers + 1 } : State).network url
      with
    | reqErr m => simp
    | ok sz => by_cases hz : sz = 0 <;> simp [hz]
    | streamErr w m => simp
    | writeErr w m => simp

/-- The per-item result shape demanded by the claim: either a cache success
decorated with the fingerprinted local path, or a failure carrying an error
message and no path. -/
def batchShape (r : BatchResult) : Bool :=
  (r.cached && (r.localPath == some (getLocalPath r.item.imageUrl)) &&
    (r.error == none)) ||
  (!r.cached && (r.localPath == none) && r.error.isSome)

theorem batchGo_length (total : Nat) (ws : List Wallpaper) :
    ∀ c st, (batchGo total ws c st).1.length = ws.length := by
  induction ws with
  | nil => intro c st; simp [batchGo]
  | cons w rest ih => intro c st; simp [batchGo, ih]

theorem batchGo_items (total : Nat) (ws : List Wallpaper) :
    ∀ c st, (batchGo total ws c st).1.map BatchResult.item = ws := by
  induction ws with
  | nil => intro c st; simp [batchGo]
  | cons w rest ih =>
    intro c st
    cases hdl : (downloadImage st w.imageUrl w.id).1 <;>
      simp [batchGo, hdl, ih]

theorem batchGo_shape (total : Nat) (ws : List Wallpaper) :
    ∀ c st, ((batchGo total ws c st).1.all batchShape) = true := by
  induction ws with
  | nil => intro c st; simp [batchGo]
  | cons w rest ih =>
    intro c st
    rcases downloadImage_result_shape st w.imageUrl w.id with h | ⟨m, h⟩ <;>
      simp [batchGo, h, batchShape, ih]

theorem batchGo_progress (ws : List Wallpaper) :
    ∀ total c st, (batchGo total ws c st).2.1 =
      (List.range ws.length).map (fun i => (c + i + 1, total)) := by
  induction ws with
  | nil => intro total c st; simp [batchGo]
  | cons w rest ih =>
    intro total c st
    simp only [batchGo, List.length_cons, List.range_succ_eq_map,
      List.map_cons, List.map_map]
    rw [ih]
    simp [Function.comp, Nat.add_assoc, Nat.add_comm, Nat.add_left_comm]

/-- C1: `batchDownload` returns one result per input item in input order,
each decorated as a success (`localPath`, `cached: true`) or a captured
failure (`cached: false`, an error message); a failure does not abort the
remaining items, and the progress callback fires exactly once per item with
`completed` running 1, 2, ..., total in strictly increasing order. -/
theorem batchDownload_contract :
    ∀ ws st,
      (batchDownload st ws).1.length = ws.length ∧
      (batchDownload st ws).1.map BatchResult.item = ws ∧
      ((batchDownload st ws).1.all batchShape) = true ∧
      (batchDownload st ws).2.1 =
        (List.range ws.length).map (fun i => (i + 1, ws.length)) := by
  intro ws st
  refine ⟨batchGo_length _ _ _ _, batchGo_items _ _ _ _,
    batchGo_shape _ _ _ _, ?_⟩
  simpa using batchGo_progress ws ws.length 0 st

/-! ### C7: the statistics -/

/-- A directory holding one 5-byte image but no metadata entries. -/
def c7St : State :=
  { files := [("img1.png", 5)], metadataFile := none,
    statFail := fun _ => false, unlinkFail := fun _ => false,
    network := fun _ => NetResult.reqErr "offline", now := 0, transfers := 0 }

/-- C7 counterexample: the entry count is NOT obtained by enumerating the
directory's files — with one image on disk and empty metadata the code
reports 0 entries while the directory (metadata file excluded) holds 1. -/
theorem getCacheStats_counterexample :
    (getCacheStats c7St).totalImages ≠
      ((listDir c7St).filter (fun n => n != metadataFileName)).length := by
  decide

theorem statsFold_eq (st : State) :
    ∀ (l : List (String × Nat)) (acc : Nat),
      (∀ p ∈ l, lookupFile st p.1 = some p.2) →
      (l.map Prod.fst).foldl (statsStep st) acc =
      acc + ((l.filter
        (fun p => !st.statFail p.1 && p.1 != metadataFileName)).map
        Prod.snd).sum := by
  intro l
  induction l with
  | nil => intro acc h; simp
  | cons p rest ih =>
    intro acc h
    have hp : lookupFile st p.1 = some p.2 := h p (List.mem_cons_self p rest)
    have hrest : ∀ q ∈ rest, lookupFile st q.1 = some q.2 :=
      fun q hq => h q (List.mem_cons_of_mem p hq)
    by_cases hm : p.1 = metadataFileName
    · have hne : (p.1 != metadataFileName) = false := by simp [hm]
      have hstep : statsStep st acc p.1 = acc := by simp [statsStep, hm]
      simp only [List.map_cons, List.foldl_cons, hstep]
      rw [ih acc hrest]
      simp [List.filter_cons, hne]
    · have hne : (p.1 != metadataFileName) = true := by simp [hm]
      by_cases hsf : st.statFail p.1 = true
      · have hstep : statsStep st acc p.1 = acc := by
          simp [statsStep, statSize, hm, hsf]
        simp only [List.map_cons, List.foldl_cons, hstep]
        rw [ih acc hrest]
        simp [List.filter_cons, hsf]
      · have hstep : statsStep st acc p.1 = acc + p.2 := by
          simp [statsStep, statSize, hm, hsf, hp]
        simp only [List.map_cons, List.foldl_cons, hstep]
        rw [ih (acc + p.2) hrest]
        simp only [Bool.not_eq_true] at hsf
        simp [List.filter_cons, hsf, hne]
        omega

/-- C7 (amended): `getCacheStats` takes its entry count from the metadata
store (the number of metadata keys), not from the directory; only the byte
total is recomputed by enumerating the directory's files, excluding
`metadata.json` and skipping files whose stat fails. -/
theorem getCacheStats_amended :
    ∀ st, (getCacheStats st).totalImages = (readMetadata st).length ∧
      ((st.files.map Prod.fst).Nodup →
        (getCacheStats st).cacheSize =
          ((st.files.filter
            (fun p => !st.statFail p.1 && p.1 != metadataFileName)).map
            Prod.snd).sum) := by
  intro st
  refine ⟨rfl, fun hnd => ?_⟩
  have hmem : ∀ p ∈ st.files, lookupFile st p.1 = some p.2 :=
    fun p hp => lookup_of_mem_nodup st.files hnd p.1 p.2 (by simpa using hp)
  have htail : ∀ acc,
      (if st.metadataFile.isSome then [metadataFileName] else []).foldl
        (statsStep st) acc = acc := by
    intro acc
    cases st.metadataFile <;> simp [statsStep]
  show (listDir st).foldl (statsStep st) 0 = _
  rw [listDir, List.foldl_append, statsFold_eq st st.files 0 hmem, htail]
  simp

theorem getCacheStats_amended_witness :
    (getCacheStats c7St).totalImages = (readMetadata c7St).length ∧
    (getCacheStats c7St).cacheSize =
      ((c7St.files.filter
        (fun p => !c7St.statFail p.1 && p.1 != metadataFileName)).map
        Prod.snd).sum :=
  ⟨(getCacheStats_amended c7St).1, (getCacheStats_amended c7St).2 (by decide)⟩

/-! ### C9: clearing the cache -/

theorem lookup_none_keys {α : Type} (l : List (String × α)) (k : String)
    (h : List.lookup k l = none) : ∀ p ∈ l, p.1 ≠ k := by
  induction l with
  | nil => intro p hp; cases hp
  | cons q rest ih =>
    intro p hp
    rw [List.lookup] at h
    by_cases hb : (k == q.1) = true
    · simp [hb] at h
    · simp only [Bool.not_eq_true] at hb
      simp only [hb] at h
      rcases List.mem_cons.mp hp with rfl | hm
      · exact Ne.symm (beq_eq_false_iff_ne.mp hb)
      · exact ih h p hm

theorem clearStep_preserves (s : State) (n : String) :
    (clearStep s n).statFail = s.statFail ∧
    (clearStep s n).unlinkFail = s.unlinkFail := by
  simp only [clearStep, deleteAny, deleteFile]
  repeat' split
  all_goals exact ⟨rfl, rfl⟩

theorem clearFold_clears :
    ∀ (ns : List String) (s : State),
      (∀ f, s.statFail f = false) → (∀ f, s.unlinkFail f = false) →
      (∀ p ∈ s.files, p.1 ∈ ns ∧ p.1 ≠ metadataFileName) →
      (s.metadataFile.isSome = true → metadataFileName ∈ ns) →
      (ns.foldl clearStep s).files = [] ∧
      (ns.foldl clearStep s).metadataFile = none := by
  intro ns
  induction ns with
  | nil =>
    intro s hsf huf hfiles hmeta
    constructor
    · exact List.eq_nil_iff_forall_not_mem.mpr
        (fun p hp => absurd (hfiles p hp).1 (List.not_mem_nil p.1))
    · cases hmf : s.metadataFile with
      | none => simpa using hmf
      | some m => exact absurd (hmeta (by simp [hmf])) (List.not_mem_nil _)
  | cons n rest ih =>
    intro s hsf huf hfiles hmeta
    simp only [List.foldl_cons]
    have hsf' : ∀ f, (clearStep s n).statFail f = false := by
      intro f; rw [(clearStep_preserves s n).1]; exact hsf f
    have huf' : ∀ f, (clearStep s n).unlinkFail f = false := by
      intro f; rw [(clearStep_preserves s n).2]; exact huf f
    refine ih (clearStep s n) hsf' huf' ?_ ?_
    · intro p hp
      simp only [clearStep] at hp
      cases hss : statSize s n with
      | none =>
        rw [hss] at hp
        have hin := hfiles p hp
        refine ⟨?_, hin.2⟩
        rcases List.mem_cons.mp hin.1 with he | hm
        · exfalso
          have hnm : n ≠ metadataFileName := fun hh => hin.2 (he.trans hh)
          have hlk : List.lookup n s.files = none := by
            simpa [statSize, hsf n, hnm, lookupFile] using hss
          exact lookup_none_keys s.files n hlk p hp he
        · exact hm
      | some sz =>
        rw [hss] at hp
        rw [if_neg (by simp [huf n])] at hp
        simp only [deleteAny] at hp
        by_cases hnm : n = metadataFileName
        · rw [if_pos hnm] at hp
          have hin := hfiles p hp
          refine ⟨?_, hin.2⟩
          rcases List.mem_cons.mp hin.1 with he | hm
          · exact absurd (he.trans hnm) hin.2
          · exact hm
        · rw [if_neg hnm] at hp
          simp only [deleteFile, List.mem_filter] at hp
          have hin := hfiles p hp.1
          refine ⟨?_, hin.2⟩
          rcases List.mem_cons.mp hin.1 with he | hm
          · exact absurd (beq_iff_eq.mpr he) (by simpa using hp.2)
          · exact hm
    · intro hsome
      simp only [clearStep] at hsome
      cases hss : statSize s n with
      | none =>
        rw [hss] at hsome
        have hin := hmeta hsome
        rcases List.mem_cons.mp hin with he | hm
        · exfalso
          have hs2 : s.metadataFile.isSome = true := hsome
          simp [statSize, ← he, hs2, hsf] at hss
        · exact hm
      | some sz =>
        rw [hss] at hsome
        rw [if_neg (by simp [huf n])] at hsome
        simp only [deleteAny] at hsome
        by_cases hnm : n = metadataFileName
        · rw [if_pos hnm] at hsome
          simp at hsome
        · rw [if_neg hnm] at hsome
          simp only [deleteFile] at hsome
          have hin := hmeta hsome
          rcases List.mem_cons.mp hin with he | hm
          · exact absurd he.symm hnm
          · exact hm

/-- C9: after `clearCache()` — with no stat or unlink failures and no image
file shadowing the metadata name — the directory is empty, the metadata
backing file is gone, a subsequent `readMetadata` yields the empty mapping,
`getCacheStats` reports 0 entries, and `exists(u)` is false for every URL. -/
theorem clearCache_complete :
    ∀ st, (∀ f, st.statFail f = false) → (∀ f, st.unlinkFail f = false) →
      (st.files.all (fun p => p.1 != metadataFileName)) = true →
      (clearCache st).files = [] ∧ (clearCache st).metadataFile = none ∧
      readMetadata (clearCache st) = [] ∧
      (getCacheStats (clearCache st)).totalImages = 0 ∧
      (∀ url, (existsChk (clearCache st) url).1 = false) := by
  intro st hsf huf hall
  have hmain := clearFold_clears (listDir st) st hsf huf
    (fun p hp =>
      ⟨List.mem_append_left _ (List.mem_map_of_mem Prod.fst hp),
       bne_iff_ne.mp (List.all_eq_true.mp hall p hp)⟩)
    (fun hsome => by
      apply List.mem_append_right
      simp [listDir, hsome])
  have hfe : (clearCache st).files = [] := hmain.1
  have hme : (clearCache st).metadataFile = none := hmain.2
  refine ⟨hfe, hme, by simp [readMetadata, hme], ?_, ?_⟩
  · simp [getCacheStats, readMetadata, hme]
  · intro url
    simp only [existsChk, lookupFile, hfe]
    rfl

/-- A concrete populated cache: two image files plus one metadata entry. -/
def c9St : State :=
  { files := [("aaa.png", 3), ("bbb.jpg", 4)],
    metadataFile := some [("http://a/x.png",
      { id := "x", localPath := "p", downloadTime := some 0,
        originalUrl := "http://a/x.png", fileSize := 3 })],
    statFail := fun _ => false, unlinkFail := fun _ => false,
    network := fun _ => NetResult.reqErr "offline", now := 0, transfers := 0 }

theorem clearCache_complete_witness :
    (clearCache c9St).files = [] ∧ (clearCache c9St).metadataFile = none ∧
    readMetadata (clearCache c9St) = [] ∧
    (getCacheStats (clearCache c9St)).totalImages = 0 ∧
    (existsChk (clearCache c9St) "http://a/x.png").1 = false := by
  have h := clearCache_complete c9St (fun f => rfl) (fun f => rfl) (by decide)
  exact ⟨h.1, h.2.1, h.2.2.1, h.2.2.2.1, h.2.2.2.2 "http://a/x.png"⟩

end MoelyCache
